import Mathlib

/-
Verification of the everyday_my_arxiv selection pipeline.

The pipeline is embedded shallowly:
  * papers (Python dicts) become a `Paper` structure whose fields are
    `Option`-valued, so that a missing dictionary key is representable;
    a Python `KeyError` is modelled by an `Option`-returning operation
    producing `none`;
  * Python floats become rationals (`Rat`);
  * calendar dates are parsed from `YYYY-MM-DD` strings (mirroring
    `datetime.strptime(s, "%Y-%m-%d")`) and compared through a day count,
    which realises Python date comparison and `timedelta` arithmetic;
  * `list.sort(key=..., reverse=True)` / `sorted(..., reverse=True)`
    (Timsort, stable) is modelled by `List.mergeSort` with the order
    "score of the right argument is at most score of the left", which is
    likewise stable;
  * `datetime.now().date()` is passed in explicitly as a `today` argument.
-/

namespace ArxivPipeline

/-- Contiguous-sublist test on character lists: `containsSub n h` holds
iff `n` occurs as a contiguous run inside `h`.  This realises Python's
`needle in hay` test on strings. -/
def containsSub (needle : List Char) : List Char → Bool
  | [] => needle.isEmpty
  | c :: t => needle.isPrefixOf (c :: t) || containsSub needle t

/-- Python `needle in hay` on strings. -/
def strContains (hay needle : String) : Bool := containsSub needle.toList hay.toList

/-- Python `str.lower()` (the inputs we reason about are ASCII):
lower-case every character of the string. -/
def lowerStr (s : String) : String := ⟨s.data.map Char.toLower⟩

/-- Gregorian leap-year rule, as used by Python's `datetime.date`. -/
def isLeapYear (y : Nat) : Bool := y % 4 == 0 && (y % 100 != 0 || y % 400 == 0)

/-- Number of days of month `m` (1–12) in a (non-)leap year. -/
def daysInMonth (leap : Bool) : Nat → Nat
  | 1 => 31
  | 2 => if leap then 29 else 28
  | 3 => 31
  | 4 => 30
  | 5 => 31
  | 6 => 30
  | 7 => 31
  | 8 => 31
  | 9 => 30
  | 10 => 31
  | 11 => 30
  | 12 => 31
  | _ => 0

/-- Days in the year strictly before month `m`. -/
def daysBeforeMonth (leap : Bool) (m : Nat) : Nat :=
  ((List.range (m - 1)).map (fun i => daysInMonth leap (i + 1))).sum

/-- A calendar date (`datetime.date`); `parseDate` only produces valid ones. -/
structure Date where
  year : Nat
  month : Nat
  day : Nat
deriving DecidableEq

/-- Number of leap years in `1..n`. -/
def leapCount (n : Nat) : Nat := n / 4 - n / 100 + n / 400

/-- Day count of a date (day 1 is 0001-01-01).  Python's `date` total order
and `timedelta` difference coincide with the order and difference of day
counts. -/
def dayNumber (d : Date) : Nat :=
  (d.year - 1) * 365 + leapCount (d.year - 1) + daysBeforeMonth (isLeapYear d.year) d.month
    + (d.day - 1)

/-- Split a character list at every dash, like Python `s.split('-')`
(`acc` holds the reversed characters of the current field). -/
def splitOnDash (acc : List Char) : List Char → List (List Char)
  | [] => [acc.reverse]
  | c :: t => if c = '-' then acc.reverse :: splitOnDash [] t else splitOnDash (c :: acc) t

/-- Read a non-empty all-digit character list as a number (Python `int`
on a field matched by a `\d+`-style directive). -/
def digitsToNat? (cs : List Char) : Option Nat :=
  if !cs.isEmpty && cs.all Char.isDigit then
    some (cs.foldl (fun n c => n * 10 + (c.toNat - 48)) 0)
  else none

/-- Model of `datetime.strptime(s, "%Y-%m-%d").date()`: four year digits,
one or two month digits in 1–12, one or two day digits valid for the
month; anything else raises `ValueError`, i.e. returns `none`. -/
def parseDate (s : String) : Option Date :=
  match splitOnDash [] s.toList with
  | [ys, ms, ds] =>
    match digitsToNat? ys, digitsToNat? ms, digitsToNat? ds with
    | some y, some m, some d =>
      if ys.length == 4 && 1 ≤ y &&
         ms.length ≤ 2 && 1 ≤ m && m ≤ 12 &&
         ds.length ≤ 2 && 1 ≤ d && d ≤ daysInMonth (isLeapYear y) m
      then some ⟨y, m, d⟩ else none
    | _, _, _ => none
  | _ => none

/-- One entry of `match_details['primary_matches']` / `['secondary_matches']`. -/
structure MatchItem where
  keyword : String
  location : String
  weight : Rat
deriving DecidableEq

/-- The `match_details` dictionary built by `ArxivParser.match_keywords`. -/
structure MatchDetails where
  primary_matches : List MatchItem
  secondary_matches : List MatchItem
  excluded_matches : List String
  author_matches : List String
deriving DecidableEq

/-- A paper record (a Python dict).  A field holds `none` when the
corresponding key is absent from the dict; the enrichment fields
(`match_score`, `match_details`, `citation_velocity`, `impact_score`)
start out absent and are written by pipeline stages. -/
structure Paper where
  id : Option String := none
  title : Option String := none
  abstract : Option String := none
  authors : Option (List String) := none
  published_date : Option String := none
  categories : Option (List String) := none
  citation_count : Option Int := none
  match_score : Option Rat := none
  match_details : Option MatchDetails := none
  citation_velocity : Option Rat := none
  impact_score : Option Rat := none
deriving DecidableEq

/-- The `weight_factors` dictionary of `config/keywords.json`.
The four multiplier keys are the ones `ArxivParser.match_keywords` reads.
Modelled from the spec: the configuration file itself is not in the
sources; per the spec's taxonomy the dictionary also carries fixed
additive author-bonus and exclusion-penalty values, recorded here as
`author_match_bonus` and `exclusion_penalty` (the parser code never
reads them). -/
structure WeightFactors where
  title_match : Rat
  abstract_match : Rat
  primary_keyword_match : Rat
  secondary_keyword_match : Rat
  author_match_bonus : Rat
  exclusion_penalty : Rat
deriving DecidableEq

/-- The keyword configuration loaded by `ArxivParser.__init__`. -/
structure KeywordsConfig where
  primary_keywords : List String
  secondary_keywords : List String
  exclude_keywords : List String
  author_preferences : List String
  weight_factors : WeightFactors
  minimum_match_score : Rat
deriving DecidableEq

/-- The keyword loop of `ArxivParser.match_keywords` (run once with the
primary tier multiplier, once with the secondary one): each keyword is
tested against the lowered title first and, only if that fails, against
the lowered abstract; `tierW` is the tier multiplier. -/
def keywordHits (wf : WeightFactors) (tierW : Rat) (title abstract : String)
    (keywords : List String) : List MatchItem :=
  keywords.filterMap (fun k =>
    if strContains title (lowerStr k) then
      some ⟨k, "title", wf.title_match * tierW⟩
    else if strContains abstract (lowerStr k) then
      some ⟨k, "abstract", wf.abstract_match * tierW⟩
    else none)

/-- Author-preference loop of `ArxivParser.match_keywords`.  The body reads
`paper['authors']`, so with a non-empty preference list a missing
`authors` key raises `KeyError` (`none`); with an empty preference list
the loop never runs and the key is never read. -/
def authorHits (prefs : List String) (p : Paper) : Option (List String) :=
  if prefs.isEmpty then some []
  else do
    let as ← p.authors
    let lowered := as.map lowerStr
    return prefs.filter (fun a => lowered.contains (lowerStr a))

/-- `ArxivParser.match_keywords(paper)`: reads `paper['title']` and
`paper['abstract']` (a missing key raises `KeyError`, i.e. `none`),
collects primary, secondary, excluded and author matches, and sums the
score: primary-hit weights, plus secondary-hit weights, plus a flat
`1.0` when any preferred author matched, minus a flat `2.0` when any
exclude keyword matched. -/
def matchKeywords (cfg : KeywordsConfig) (p : Paper) : Option (Rat × MatchDetails) := do
  let title := lowerStr (← p.title)
  let abstract := lowerStr (← p.abstract)
  let primary := keywordHits cfg.weight_factors cfg.weight_factors.primary_keyword_match
      title abstract cfg.primary_keywords
  let secondary := keywordHits cfg.weight_factors cfg.weight_factors.secondary_keyword_match
      title abstract cfg.secondary_keywords
  let excluded := cfg.exclude_keywords.filter (fun k =>
      strContains title (lowerStr k) || strContains abstract (lowerStr k))
  let authorsMatched ← authorHits cfg.author_preferences p
  let score := (primary.map MatchItem.weight).sum + (secondary.map MatchItem.weight).sum
      + (if authorsMatched.isEmpty then 0 else 1)
      - (if excluded.isEmpty then 0 else 2)
  return (score, ⟨primary, secondary, excluded, authorsMatched⟩)

/-- Sort key `x['match_score']` used by `filter_papers_by_keywords` (every
sorted record has the field set, so the default is never exercised). -/
def scoreKey (p : Paper) : Rat := p.match_score.getD 0

/-- Comparator realising the stable descending-score sort
`filtered_papers.sort(key=lambda x: x['match_score'], reverse=True)`. -/
def paperLe (a b : Paper) : Bool := scoreKey b ≤ scoreKey a

/-- The loop of `ArxivParser.filter_papers_by_keywords`: score every paper
(`KeyError` propagates), keep those whose score reaches
`minimum_match_score`, writing `match_score` and `match_details` into
the kept records. -/
def keepScored (cfg : KeywordsConfig) : List Paper → Option (List Paper)
  | [] => some []
  | p :: ps => do
    let sd ← matchKeywords cfg p
    let rest ← keepScored cfg ps
    if cfg.minimum_match_score ≤ sd.1 then
      return { p with match_score := some sd.1, match_details := some sd.2 } :: rest
    else
      return rest

/-- `ArxivParser.filter_papers_by_keywords(papers)`: keep the papers whose
match score reaches the threshold and sort them by score, descending,
with a stable sort. -/
def filterPapersByKeywords (cfg : KeywordsConfig) (papers : List Paper) :
    Option (List Paper) :=
  (keepScored cfg papers).map (fun l => l.mergeSort paperLe)

/-- `PaperFilter.filter_by_date(papers, days)`: keep the papers whose
`published_date` parses and is at least `today - timedelta(days=days)`;
a missing key (`KeyError`) or unparseable date (`ValueError`) skips the
record.  No upper bound is applied to the date. -/
def filterByDate (today : Date) (days : Nat) (papers : List Paper) : List Paper :=
  papers.filter (fun p =>
    match p.published_date with
    | none => false
    | some s =>
      match parseDate s with
      | none => false
      | some d => (dayNumber today : Int) - (days : Int) ≤ (dayNumber d : Int))

/-- `PaperFilter.filter_by_category(papers, categories)`: keep the papers
one of whose categories (`paper.get('categories', [])`, defaulting to
the empty list) occurs in the allow-list. -/
def filterByCategory (cats : List String) (papers : List Paper) : List Paper :=
  papers.filter (fun p => cats.any (fun c => (p.categories.getD []).contains c))

/-- The loop of `PaperFilter.filter_duplicates`, with the set of ids seen
so far: reading `paper['id']` raises `KeyError` (`none`) when absent;
a record whose id was already seen is dropped. -/
def filterDuplicatesAux (seen : List String) : List Paper → Option (List Paper)
  | [] => some []
  | p :: ps => do
    let i ← p.id
    if seen.contains i then
      filterDuplicatesAux seen ps
    else do
      let rest ← filterDuplicatesAux (i :: seen) ps
      return p :: rest

/-- `PaperFilter.filter_duplicates(papers)`: drop every record whose id was
already seen earlier in the list. -/
def filterDuplicates (papers : List Paper) : Option (List Paper) :=
  filterDuplicatesAux [] papers

/-- `PaperFilter.limit_papers(papers, limit)`, i.e. `papers[:limit]`. -/
def limitPapers (papers : List Paper) (limit : Nat) : List Paper :=
  papers.take limit

/-- `CitationAnalyzer.calculate_citation_velocity(papers)`.  The Python
loop assigns `paper['citation_velocity']` into every record of its input
list in place and returns that same list; the embedding returns the
post-call state of the input list's records.  A record with both a
citation count and a published date gets velocity
count / max(1, days since publication); every other record (including
one whose date fails to parse) gets velocity 0. -/
def calculateCitationVelocity (today : Date) (papers : List Paper) : List Paper :=
  papers.map (fun p =>
    match p.citation_count, p.published_date with
    | some c, some s =>
      match parseDate s with
      | some d =>
        { p with citation_velocity := some ((c : Rat) /
            ((max 1 ((dayNumber today : Int) - (dayNumber d : Int)) : Int) : Rat)) }
      | none => { p with citation_velocity := some 0 }
    | _, _ => { p with citation_velocity := some 0 })

/-- Sort key `x.get('impact_score', 0)` of `rank_papers_by_impact`. -/
def impactKey (p : Paper) : Rat := p.impact_score.getD 0

/-- Comparator realising `sorted(..., key=lambda x: x.get('impact_score', 0),
reverse=True)` (stable, descending). -/
def impactLe (a b : Paper) : Bool := impactKey b ≤ impactKey a

/-- The impact-score loop of `CitationAnalyzer.rank_papers_by_impact`:
`impact_score = 0.7 * citation_count + 0.3 * citation_velocity * 10`
with both fields read through `.get(..., 0)`.  Like the velocity loop it
writes into the records in place. -/
def setImpactScore (p : Paper) : Paper :=
  { p with impact_score := some ((7 / 10 : Rat) * ((p.citation_count.getD 0 : Int) : Rat)
      + (3 / 10 : Rat) * p.citation_velocity.getD 0 * 10) }

/-- `CitationAnalyzer.rank_papers_by_impact(papers)`: compute velocities,
compute impact scores, and return the records sorted by impact score,
descending (stable `sorted`). -/
def rankPapersByImpact (today : Date) (papers : List Paper) : List Paper :=
  (((calculateCitationVelocity today papers).map setImpactScore).mergeSort impactLe)

/-- The Selection Pipeline of `scripts/run_daily_report.py` `main` (steps
2, 3, 4, 6, 7): date filter, category filter, keyword scoring/ranking,
deduplication by id, truncation to `maxPapers`. -/
def selectPapers (cfg : KeywordsConfig) (today : Date) (days : Nat)
    (cats : List String) (maxPapers : Nat) (papers : List Paper) :
    Option (List Paper) := do
  let byDate := filterByDate today days papers
  let byCat := filterByCategory cats byDate
  let ranked ← filterPapersByKeywords cfg byCat
  let deduped ← filterDuplicates ranked
  return limitPapers deduped maxPapers

/-- Post-call state of one record of the list passed to
`ArxivParser.filter_papers_by_keywords`: the loop assigns
`paper['match_score']` and `paper['match_details']` into the records
that reach the threshold (the very dict objects owned by the caller),
so a qualifying input record is mutated in place. -/
def scoredPost (cfg : KeywordsConfig) (p : Paper) : Option Paper :=
  (matchKeywords cfg p).map (fun sd =>
    if cfg.minimum_match_score ≤ sd.1 then
      { p with match_score := some sd.1, match_details := some sd.2 }
    else p)

/-- Post-call state of the whole input list of
`ArxivParser.filter_papers_by_keywords` (see `scoredPost`). -/
def filterPapersByKeywordsPost (cfg : KeywordsConfig) (papers : List Paper) :
    Option (List Paper) :=
  papers.mapM (scoredPost cfg)

/-
Concrete sample data, used by witnesses and counterexamples.  The weight
values of `wfSample` and the two keyword sets of `cfgSample` are the
worked example of the specification (title multiplier 1.0, abstract
multiplier 0.5, primary multiplier 2.0, secondary multiplier 1.0,
author bonus 1.0, exclusion penalty 2.0, minimum score 1.5).
-/

/-- The weight factors of the specification's worked example. -/
def wfSample : WeightFactors := ⟨1, 1 / 2, 2, 1, 1, 2⟩

/-- The taxonomy of the specification's worked example. -/
def cfgSample : KeywordsConfig :=
  ⟨["diffusion model"], ["transformer"], [], [], wfSample, 3 / 2⟩

/-- All-ones weight factors (exclusion penalty 2), for small examples. -/
def wfOnes : WeightFactors := ⟨1, 1, 1, 1, 1, 2⟩

/-- A taxonomy with one primary keyword and one exclude keyword. -/
def cfgRobot : KeywordsConfig := ⟨["robot"], [], ["survey"], [], wfOnes, 0⟩

/-- A taxonomy with only an exclude keyword. -/
def cfgExcl : KeywordsConfig := ⟨[], [], ["survey"], [], wfOnes, 0⟩

/-- A fixed current date for the examples. -/
def sampleToday : Date := ⟨2026, 10, 12⟩

/-- Candidate A of the specification's worked example: the primary
keyword occurs in the title. -/
def paperA : Paper :=
  { id := some "2501.00001"
    title := some "A Diffusion Model for X"
    abstract := some "stuff"
    authors := some ["Ann"]
    published_date := some "2026-10-11"
    categories := some ["cs.RO"] }

/-- Candidate A after the keyword stage wrote its score (1.0 × 2.0) and
evidence into the record. -/
def paperAScored : Paper :=
  { paperA with
    match_score := some 2
    match_details := some ⟨[⟨"diffusion model", "title", 1 * 2⟩], [], [], []⟩ }

/-- Candidate B of the specification's worked example: only the
secondary keyword occurs, in the abstract (score 0.5, below 1.5). -/
def paperB : Paper :=
  { id := some "2501.00002"
    title := some "Another Method"
    abstract := some "uses a transformer"
    authors := some ["Bob"]
    published_date := some "2026-10-12"
    categories := some ["cs.RO"] }

/-- A paper dated one day after `sampleToday`. -/
def futurePaper : Paper :=
  { id := some "2502.00001"
    title := some "From the Future"
    abstract := some "stuff"
    authors := some ["Cal"]
    published_date := some "2026-10-13"
    categories := some ["cs.RO"] }

/-- A paper whose dict has no title key. -/
def noTitlePaper : Paper :=
  { id := some "2503.00001"
    abstract := some "an abstract"
    authors := some ["Dee"]
    published_date := some "2026-10-12"
    categories := some ["cs.RO"] }

/-- A paper whose dict has no id key. -/
def noIdPaper : Paper :=
  { title := some "Untracked"
    abstract := some "an abstract"
    authors := some ["Eve"]
    published_date := some "2026-10-12"
    categories := some ["cs.RO"] }

/-- A paper whose title matches the exclude keyword of `cfgExcl`. -/
def exclPaper : Paper :=
  { id := some "2504.00001"
    title := some "A survey"
    abstract := some "text"
    authors := some []
    published_date := some "2026-10-12"
    categories := some ["cs.RO"] }

/-- A paper matching nothing in `cfgRobot`. -/
def plainPaper : Paper :=
  { id := some "2505.00001"
    title := some "nothing here"
    abstract := some "nothing"
    authors := some []
    published_date := some "2026-10-12"
    categories := some ["cs.RO"] }

/-- The `plainPaper` record with its title rewritten so that the primary
keyword of `cfgRobot` (and its exclude keyword) occur in the title. -/
def plainPaperRetitled : Paper := { plainPaper with title := some "robot survey" }

/-- A paper whose published_date string is not a date. -/
def badDatePaper : Paper :=
  { id := some "2508.00001"
    title := some "Badly Dated"
    abstract := some "text"
    authors := some ["Gil"]
    published_date := some "not-a-date"
    categories := some ["cs.RO"] }

/-- A paper whose title contains the primary keyword of `cfgRobot` and
not its exclude keyword: it qualifies at threshold 0 with score 1. -/
def robotPaper : Paper :=
  { id := some "2509.00001"
    title := some "a robot walks"
    abstract := some "nothing"
    authors := some []
    published_date := some "2026-10-12"
    categories := some ["cs.RO"] }

/-- A paper with a citation count, published ten days before `sampleToday`. -/
def citedPaper : Paper :=
  { id := some "2506.00001"
    title := some "Well Cited"
    abstract := some "text"
    authors := some ["Fay"]
    published_date := some "2026-10-02"
    categories := some ["cs.RO"]
    citation_count := some 5 }

/-
Theorems.  Helper lemmas come first; the claim theorems follow, one per
claim, each preceded by a doc comment naming the claim.
-/

/-- The descending-score comparator is transitive. -/
theorem paperLe_trans : ∀ a b c : Paper, paperLe a b → paperLe b c → paperLe a c := by
  intro a b c hab hbc
  simp only [paperLe, decide_eq_true_eq] at hab hbc ⊢
  exact le_trans hbc hab

/-- The descending-score comparator is total. -/
theorem paperLe_total : ∀ a b : Paper, paperLe a b || paperLe b a := by
  intro a b
  simp only [paperLe, Bool.or_eq_true, decide_eq_true_eq]
  exact le_total _ _

/-- The descending-impact comparator is transitive. -/
theorem impactLe_trans : ∀ a b c : Paper, impactLe a b → impactLe b c → impactLe a c := by
  intro a b c hab hbc
  simp only [impactLe, decide_eq_true_eq] at hab hbc ⊢
  exact le_trans hbc hab

/-- The descending-impact comparator is total. -/
theorem impactLe_total : ∀ a b : Paper, impactLe a b || impactLe b a := by
  intro a b
  simp only [impactLe, Bool.or_eq_true, decide_eq_true_eq]
  exact le_total _ _

/-- In a `Pairwise R` list, `R` holds from every element of `take n` to
every element of `drop n`. -/
theorem pairwise_take_drop {α : Type} {R : α → α → Prop} {l : List α}
    (h : l.Pairwise R) (n : Nat) : ∀ x ∈ l.take n, ∀ y ∈ l.drop n, R x y := by
  have h2 : (l.take n ++ l.drop n).Pairwise R := by
    rw [List.take_append_drop]; exact h
  exact (List.pairwise_append.mp h2).2.2

/-- Deduplication returns a subsequence of its input. -/
theorem filterDuplicatesAux_sublist (papers : List Paper) :
    ∀ seen out, filterDuplicatesAux seen papers = some out → out.Sublist papers := by
  induction papers with
  | nil =>
    intro seen out h
    simp only [filterDuplicatesAux, Option.some.injEq] at h
    subst h
    exact List.nil_sublist _
  | cons p ps ih =>
    intro seen out h
    simp only [filterDuplicatesAux] at h
    cases hid : p.id with
    | none => rw [hid] at h; simp at h
    | some i =>
      rw [hid] at h
      simp only [Option.bind_eq_bind, Option.some_bind] at h
      by_cases hs : seen.contains i
      · rw [if_pos hs] at h
        exact (ih seen out h).cons p
      · rw [if_neg hs] at h
        cases hr : filterDuplicatesAux (i :: seen) ps with
        | none => rw [hr] at h; simp at h
        | some rest =>
          rw [hr] at h
          simp only [Option.bind_eq_bind, Option.some_bind, Option.pure_def,
            Option.some.injEq] at h
          rw [← h]
          exact (ih _ rest hr).cons₂ p

/-- Characterisation of the keyword-stage loop: on success the kept list
is the input filtered to the papers whose score reaches the threshold,
each enriched with its score and evidence. -/
theorem keepScored_eq_filterMap (cfg : KeywordsConfig) (papers : List Paper) :
    ∀ out, keepScored cfg papers = some out →
      out = papers.filterMap (fun p => (matchKeywords cfg p).bind (fun sd =>
        if cfg.minimum_match_score ≤ sd.1 then
          some { p with match_score := some sd.1, match_details := some sd.2 }
        else none)) := by
  induction papers with
  | nil =>
    intro out h
    simp only [keepScored, Option.some.injEq] at h
    subst h
    simp
  | cons p ps ih =>
    intro out h
    simp only [keepScored] at h
    cases hm : matchKeywords cfg p with
    | none => rw [hm] at h; simp at h
    | some sd =>
      rw [hm] at h
      simp only [Option.bind_eq_bind, Option.some_bind] at h
      cases hr : keepScored cfg ps with
      | none => rw [hr] at h; simp at h
      | some rest =>
        rw [hr] at h
        simp only [Option.bind_eq_bind, Option.some_bind] at h
        rw [List.filterMap_cons, hm]
        simp only [Option.bind_eq_bind, Option.some_bind]
        by_cases hmin : cfg.minimum_match_score ≤ sd.1
        · rw [if_pos hmin] at h
          simp only [Option.pure_def, Option.some.injEq] at h
          rw [if_pos hmin, ← h, ih rest hr]
        · rw [if_neg hmin] at h
          simp only [Option.pure_def, Option.some.injEq] at h
          rw [if_neg hmin, ← h, ih rest hr]

/-- Decomposition of the keyword stage: on success there is a kept list,
and the output is its stable descending-score sort. -/
theorem filterPapersByKeywords_eq (cfg : KeywordsConfig) (papers out : List Paper)
    (h : filterPapersByKeywords cfg papers = some out) :
    ∃ kept, keepScored cfg papers = some kept ∧ out = kept.mergeSort paperLe := by
  rw [filterPapersByKeywords] at h
  cases hk : keepScored cfg papers with
  | none => rw [hk] at h; simp at h
  | some kept =>
    rw [hk] at h
    simp only [Option.map_some'] at h
    exact ⟨kept, rfl, by injection h with h2; exact h2.symm⟩

/-- The keyword stage's output is sorted by match score, descending. -/
theorem filterPapersByKeywords_sorted (cfg : KeywordsConfig) (papers out : List Paper)
    (h : filterPapersByKeywords cfg papers = some out) :
    out.Pairwise (fun a b => scoreKey b ≤ scoreKey a) := by
  obtain ⟨kept, -, rfl⟩ := filterPapersByKeywords_eq cfg papers out h
  have hs := List.sorted_mergeSort paperLe_trans paperLe_total kept
  exact hs.imp (by intro a b hab; simpa [paperLe] using hab)

/-- Forward evaluation of `match_keywords` when the three dict reads
succeed: the score and evidence are the ones the loop builds. -/
theorem matchKeywords_some (cfg : KeywordsConfig) (p : Paper) (t a : String)
    (am : List String) (ht : p.title = some t) (ha : p.abstract = some a)
    (ham : authorHits cfg.author_preferences p = some am) :
    matchKeywords cfg p = some
      (((keywordHits cfg.weight_factors cfg.weight_factors.primary_keyword_match
          (lowerStr t) (lowerStr a) cfg.primary_keywords).map MatchItem.weight).sum
        + ((keywordHits cfg.weight_factors cfg.weight_factors.secondary_keyword_match
          (lowerStr t) (lowerStr a) cfg.secondary_keywords).map MatchItem.weight).sum
        + (if am.isEmpty then 0 else 1)
        - (if (cfg.exclude_keywords.filter (fun k =>
            strContains (lowerStr t) (lowerStr k) ||
            strContains (lowerStr a) (lowerStr k))).isEmpty then 0 else 2),
       ⟨keywordHits cfg.weight_factors cfg.weight_factors.primary_keyword_match
          (lowerStr t) (lowerStr a) cfg.primary_keywords,
        keywordHits cfg.weight_factors cfg.weight_factors.secondary_keyword_match
          (lowerStr t) (lowerStr a) cfg.secondary_keywords,
        cfg.exclude_keywords.filter (fun k =>
          strContains (lowerStr t) (lowerStr k) ||
          strContains (lowerStr a) (lowerStr k)),
        am⟩) := by
  simp only [matchKeywords, ht, ha, ham, Option.bind_eq_bind, Option.some_bind,
    Option.pure_def]

/-- Inverse direction: a successful `match_keywords` call determines the
title, abstract and author reads and the shape of score and evidence. -/
theorem matchKeywords_eq (cfg : KeywordsConfig) (p : Paper) (s : Rat) (d : MatchDetails)
    (h : matchKeywords cfg p = some (s, d)) :
    ∃ t a am, p.title = some t ∧ p.abstract = some a ∧
      authorHits cfg.author_preferences p = some am ∧
      d = ⟨keywordHits cfg.weight_factors cfg.weight_factors.primary_keyword_match
            (lowerStr t) (lowerStr a) cfg.primary_keywords,
          keywordHits cfg.weight_factors cfg.weight_factors.secondary_keyword_match
            (lowerStr t) (lowerStr a) cfg.secondary_keywords,
          cfg.exclude_keywords.filter (fun k =>
            strContains (lowerStr t) (lowerStr k) ||
            strContains (lowerStr a) (lowerStr k)),
          am⟩ ∧
      s = (d.primary_matches.map MatchItem.weight).sum
        + (d.secondary_matches.map MatchItem.weight).sum
        + (if am.isEmpty then 0 else 1)
        - (if d.excluded_matches.isEmpty then 0 else 2) := by
  cases ht : p.title with
  | none => rw [matchKeywords, ht] at h; simp at h
  | some t =>
  cases ha : p.abstract with
  | none => rw [matchKeywords, ht, ha] at h; simp at h
  | some a =>
  cases ham : authorHits cfg.author_preferences p with
  | none => rw [matchKeywords, ht, ha] at h; simp [ham] at h
  | some am =>
    rw [matchKeywords_some cfg p t a am ht ha ham] at h
    injection h with h2
    obtain ⟨hs, hd⟩ := Prod.mk.injEq .. |>.mp h2.symm
    refine ⟨t, a, am, rfl, rfl, rfl, hd, ?_⟩
    subst hd
    exact hs

end ArxivPipeline

namespace ArxivPipeline

/-- C3 (amended): for every candidate list and windowDays, the output of
filterByDate is a subsequence of the input, every surviving candidate
carries a date that parses and is at least today − windowDays, and a
candidate whose date field is missing or unparseable never survives;
no upper bound is enforced (a future-dated candidate survives, see the
counterexample). -/
theorem C3_date_filter_lower_bound (today : Date) (days : Nat) (papers : List Paper) :
    (filterByDate today days papers).Sublist papers ∧
    ∀ q ∈ filterByDate today days papers, ∃ s d, q.published_date = some s ∧
      parseDate s = some d ∧ (dayNumber today : Int) - (days : Int) ≤ (dayNumber d : Int) := by
  refine ⟨List.filter_sublist _, ?_⟩
  intro q hq
  rw [filterByDate, List.mem_filter] at hq
  obtain ⟨-, hcond⟩ := hq
  split at hcond
  · exact absurd hcond (by simp)
  next s hs =>
    split at hcond
    · exact absurd hcond (by simp)
    next d hd => exact ⟨s, d, hs, hd, by simpa using hcond⟩

/-- C3 (counterexample): with windowDays = 2 and today = 2026-10-12, a
candidate dated 2026-10-13 survives filterByDate although its date is
after today, so the surviving dates do not all lie within
[today − windowDays, today]. -/
theorem C3_counterexample :
    filterByDate sampleToday 2 [futurePaper] = [futurePaper] ∧
    futurePaper.published_date = some "2026-10-13" ∧
    parseDate "2026-10-13" = some ⟨2026, 10, 13⟩ ∧
    dayNumber sampleToday < dayNumber (⟨2026, 10, 13⟩ : Date) := by
  decide

/-- C3 (witness): the amended theorem applied to the future-dated
candidate, whose membership in the filter output is concrete. -/
theorem C3_date_filter_lower_bound_witness :
    ∃ s d, futurePaper.published_date = some s ∧ parseDate s = some d ∧
      (dayNumber sampleToday : Int) - ((2 : Nat) : Int) ≤ (dayNumber d : Int) :=
  (C3_date_filter_lower_bound sampleToday 2 [futurePaper]).2 futurePaper (by decide)

/-- C6 (counterexample): a record whose title key is missing does not get
silently excluded by the keyword stage: `filter_papers_by_keywords`
raises `KeyError` reading `paper['title']` (result `none`), instead of
returning the empty selection. -/
theorem C6_counterexample :
    noTitlePaper.title = none ∧
    filterPapersByKeywords cfgSample [noTitlePaper] = none ∧
    filterPapersByKeywords cfgSample [noTitlePaper] ≠ some [] := by
  refine ⟨rfl, ?_, ?_⟩ <;> decide

/-- C6 (amended): the date filter silently excludes a record whose date
is missing or unparseable, and a record survives the category filter
only with a present category list meeting the allow-list; but the
keyword-scoring stage and deduplication require the title (and
abstract/authors) and id fields: a record missing them makes the stage
raise an error rather than being excluded. -/
theorem C6_malformed_input (today : Date) (days : Nat) (papers : List Paper)
    (cats : List String) :
    (∀ p : Paper, (∀ s, p.published_date = some s → parseDate s = none) →
      p ∉ filterByDate today days papers) ∧
    (∀ q ∈ filterByCategory cats papers,
      ∃ l, q.categories = some l ∧ ∃ c ∈ cats, l.contains c) ∧
    filterPapersByKeywords cfgSample [noTitlePaper] = none ∧
    filterDuplicates [noIdPaper] = none := by
  refine ⟨?_, ?_, by decide, by decide⟩
  · intro p hbad hmem
    rw [filterByDate, List.mem_filter] at hmem
    obtain ⟨-, hcond⟩ := hmem
    split at hcond
    · exact absurd hcond (by simp)
    next s hs =>
      split at hcond
      · exact absurd hcond (by simp)
      next d hd => rw [hbad s hs] at hd; cases hd
  · intro q hq
    rw [filterByCategory, List.mem_filter] at hq
    obtain ⟨-, hcond⟩ := hq
    rw [List.any_eq_true] at hcond
    obtain ⟨c, hc, hcontains⟩ := hcond
    cases hcat : q.categories with
    | none => rw [hcat] at hcontains; simp at hcontains
    | some l => exact ⟨l, rfl, c, hc, by simpa [hcat] using hcontains⟩

/-- C6 (witness): the date-filter part of the amended theorem applied to
the record whose date string fails to parse. -/
theorem C6_malformed_input_witness :
    badDatePaper ∉ filterByDate sampleToday 2 [badDatePaper] :=
  (C6_malformed_input sampleToday 2 [badDatePaper] []).1 badDatePaper
    (by intro s hs; injection hs with h2; rw [← h2]; decide)

/-- C5 (counterexample): `calculate_citation_velocity` writes a
`citation_velocity` field into every record of its input list in place
(and returns that same list), so the input records do not come out
unchanged: even a record with no citation data is mutated to carry
velocity 0.  Likewise `filter_papers_by_keywords` writes `match_score`
and `match_details` into every qualifying input record. -/
theorem C5_counterexample :
    calculateCitationVelocity sampleToday [plainPaper] ≠ [plainPaper] ∧
    filterPapersByKeywordsPost cfgRobot [robotPaper] ≠ some [robotPaper] := by
  constructor
  · decide
  · intro h
    simp only [filterPapersByKeywordsPost, scoredPost, List.mapM_cons, List.mapM_nil] at h
    revert h
    simp +decide [matchKeywords, keywordHits, authorHits, cfgRobot, robotPaper, wfOnes]

/-- C5 (amended): the date filter, category filter, deduplication and
bounding stages return subsequences of their input and leave every
record unchanged; but the keyword-scoring stage mutates each qualifying
input record in place (adding match_score and match_details), and the
citation stages mutate every input record in place (adding
citation_velocity and impact_score), returning sequences built from
those mutated records. -/
theorem C5_stage_purity (today : Date) (days : Nat) (cats : List String)
    (papers : List Paper) (n : Nat) :
    (filterByDate today days papers).Sublist papers ∧
    (filterByCategory cats papers).Sublist papers ∧
    (∀ out, filterDuplicates papers = some out → out.Sublist papers) ∧
    (limitPapers papers n).Sublist papers ∧
    calculateCitationVelocity sampleToday [plainPaper] ≠ [plainPaper] ∧
    filterPapersByKeywordsPost cfgRobot [robotPaper] ≠ some [robotPaper] := by
  refine ⟨List.filter_sublist _, List.filter_sublist _, ?_, List.take_sublist _ _, ?_, ?_⟩
  · intro out h
    exact filterDuplicatesAux_sublist papers [] out h
  · decide
  · intro h
    simp only [filterPapersByKeywordsPost, scoredPost, List.mapM_cons, List.mapM_nil] at h
    revert h
    simp +decide [matchKeywords, keywordHits, authorHits, cfgRobot, robotPaper, wfOnes]

/-- C5 (witness): the deduplication part of the amended theorem applied
to a concrete duplicate-free list. -/
theorem C5_stage_purity_witness :
    ([paperA] : List Paper).Sublist [paperA] :=
  (C5_stage_purity sampleToday 2 ["cs.RO"] [paperA] 1).2.2.1 [paperA] (by decide)

/-- Membership in the keyword loop's hit list determines location and
weight: a title hit carries title weight, an abstract hit is only
recorded when the keyword is not in the title. -/
theorem mem_keywordHits (wf : WeightFactors) (tierW : Rat) (T A : String)
    (ks : List String) (it : MatchItem) (h : it ∈ keywordHits wf tierW T A ks) :
    it.keyword ∈ ks ∧
    ((strContains T (lowerStr it.keyword) = true ∧ it.location = "title" ∧
       it.weight = wf.title_match * tierW) ∨
     (strContains T (lowerStr it.keyword) = false ∧
       strContains A (lowerStr it.keyword) = true ∧ it.location = "abstract" ∧
       it.weight = wf.abstract_match * tierW)) := by
  rw [keywordHits, List.mem_filterMap] at h
  obtain ⟨k, hk, hfk⟩ := h
  by_cases h1 : strContains T (lowerStr k) = true
  · rw [if_pos h1] at hfk
    cases hfk
    exact ⟨hk, Or.inl ⟨h1, rfl, rfl⟩⟩
  · rw [if_neg h1] at hfk
    by_cases h2 : strContains A (lowerStr k) = true
    · rw [if_pos h2] at hfk
      cases hfk
      exact ⟨hk, Or.inr ⟨by simpa using h1, h2, rfl, rfl⟩⟩
    · rw [if_neg h2] at hfk
      exact absurd hfk (by simp)

/-- Concrete evaluation: scoring `exclPaper` against `cfgExcl` yields
score −2 with only the exclude keyword matched. -/
theorem eval_match_excl :
    matchKeywords cfgExcl exclPaper = some (-2, ⟨[], [], ["survey"], []⟩) := by
  simp +decide [matchKeywords, keywordHits, authorHits, cfgExcl, exclPaper, wfOnes]

/-- Concrete evaluation: scoring candidate A of the specification's
worked example yields score 2.0 from a primary title hit. -/
theorem eval_match_paperA :
    matchKeywords cfgSample paperA = some (2, ⟨[⟨"diffusion model", "title", 2⟩], [], [], []⟩) := by
  simp +decide [matchKeywords, keywordHits, authorHits, cfgSample, paperA, wfSample]

/-- C7: a candidate matching at least one exclude keyword scores exactly
the flat exclusion penalty (2.0) lower than the same candidate scored
with the exclude keywords removed, regardless of how many distinct
exclude keywords matched: the penalty is applied once, not per keyword. -/
theorem C7_exclusion_dominance (cfg : KeywordsConfig) (p : Paper) (s : Rat)
    (d : MatchDetails) (h : matchKeywords cfg p = some (s, d))
    (hx : d.excluded_matches ≠ []) :
    matchKeywords { cfg with exclude_keywords := [] } p =
      some (s + 2, { d with excluded_matches := [] }) := by
  obtain ⟨t, a, am, ht, ha, ham, hd, hs⟩ := matchKeywords_eq cfg p s d h
  have ham2 : authorHits ({ cfg with exclude_keywords := [] } : KeywordsConfig).author_preferences p = some am := ham
  have h2 := matchKeywords_some { cfg with exclude_keywords := [] } p t a am ht ha ham2
  rw [h2, Option.some.injEq, Prod.mk.injEq]
  have hxe : d.excluded_matches.isEmpty = false := by
    cases hh : d.excluded_matches with
    | nil => exact absurd hh hx
    | cons x xs => rfl
  subst hd
  refine ⟨?_, rfl⟩
  rw [hs]
  simp only [hxe, List.filter_nil, List.isEmpty_nil, if_true, if_false, Bool.false_eq_true]
  ring

/-- C7 (witness): the theorem applied to the concrete excluded paper. -/
theorem C7_exclusion_dominance_witness :
    matchKeywords { cfgExcl with exclude_keywords := [] } exclPaper =
      some ((-2 : Rat) + 2, { (⟨[], [], ["survey"], []⟩ : MatchDetails) with excluded_matches := [] }) :=
  C7_exclusion_dominance cfgExcl exclPaper (-2) ⟨[], [], ["survey"], []⟩ eval_match_excl (by decide)

/-- C10 (implicit): the author bonus the scorer adds is the constant 1.0
and the exclusion penalty it subtracts is the constant 2.0, whatever
bonus or penalty values the loaded weight-factor configuration carries:
changing those configured values never changes the score. -/
theorem C10_hardcoded_bonus_penalty (cfg : KeywordsConfig) (p : Paper) (b e : Rat) :
    matchKeywords { cfg with weight_factors :=
      { cfg.weight_factors with author_match_bonus := b, exclusion_penalty := e } } p
      = matchKeywords cfg p ∧
    ∀ s d, matchKeywords cfg p = some (s, d) →
      s = (d.primary_matches.map MatchItem.weight).sum
        + (d.secondary_matches.map MatchItem.weight).sum
        + (if d.author_matches = [] then (0 : Rat) else 1)
        - (if d.excluded_matches = [] then (0 : Rat) else 2) := by
  constructor
  · rfl
  · intro s d h
    obtain ⟨t, a, am, ht, ha, ham, hd, hs⟩ := matchKeywords_eq cfg p s d h
    rw [hs]
    subst hd
    simp only [List.isEmpty_iff]

/-- C10 (witness): the theorem applied to the concrete excluded paper,
with the configured bonus and penalty both set to 9. -/
theorem C10_hardcoded_bonus_penalty_witness :
    matchKeywords { cfgExcl with weight_factors :=
      { cfgExcl.weight_factors with author_match_bonus := 9, exclusion_penalty := 9 } } exclPaper
      = matchKeywords cfgExcl exclPaper ∧
    (-2 : Rat) = (([] : List MatchItem).map MatchItem.weight).sum
      + (([] : List MatchItem).map MatchItem.weight).sum
      + (if ([] : List String) = [] then (0 : Rat) else 1)
      - (if (["survey"] : List String) = [] then (0 : Rat) else 2) :=
  ⟨(C10_hardcoded_bonus_penalty cfgExcl exclPaper 9 9).1,
   (C10_hardcoded_bonus_penalty cfgExcl exclPaper 9 9).2 (-2) ⟨[], [], ["survey"], []⟩ eval_match_excl⟩

/-- C2: the score is the sum of primary-hit weights plus the sum of
secondary-hit weights plus a flat author bonus applied at most once
(when the author-match list is non-empty) minus a flat exclusion
penalty applied at most once (when the exclusion-match list is
non-empty); every recorded hit was checked against the title first
(an abstract hit implies the keyword is not a title substring), a
title hit weighs titleMultiplier × tierMultiplier, an abstract hit
abstractMultiplier × tierMultiplier, and no keyword is recorded as
both a title hit and an abstract hit. -/
theorem C2_keyword_scoring (cfg : KeywordsConfig) (p : Paper) (s : Rat) (d : MatchDetails)
    (t a : String) (ht : p.title = some t) (ha : p.abstract = some a)
    (h : matchKeywords cfg p = some (s, d)) :
    s = (d.primary_matches.map MatchItem.weight).sum
      + (d.secondary_matches.map MatchItem.weight).sum
      + (if d.author_matches = [] then (0 : Rat) else 1)
      - (if d.excluded_matches = [] then (0 : Rat) else 2) ∧
    (∀ it ∈ d.primary_matches,
      (it.location = "title" ∧
        it.weight = cfg.weight_factors.title_match * cfg.weight_factors.primary_keyword_match ∧
        strContains (lowerStr t) (lowerStr it.keyword) = true) ∨
      (it.location = "abstract" ∧
        it.weight = cfg.weight_factors.abstract_match * cfg.weight_factors.primary_keyword_match ∧
        strContains (lowerStr t) (lowerStr it.keyword) = false ∧
        strContains (lowerStr a) (lowerStr it.keyword) = true)) ∧
    (∀ it ∈ d.secondary_matches,
      (it.location = "title" ∧
        it.weight = cfg.weight_factors.title_match * cfg.weight_factors.secondary_keyword_match ∧
        strContains (lowerStr t) (lowerStr it.keyword) = true) ∨
      (it.location = "abstract" ∧
        it.weight = cfg.weight_factors.abstract_match * cfg.weight_factors.secondary_keyword_match ∧
        strContains (lowerStr t) (lowerStr it.keyword) = false ∧
        strContains (lowerStr a) (lowerStr it.keyword) = true)) ∧
    (∀ it ∈ d.primary_matches ++ d.secondary_matches,
      ∀ it2 ∈ d.primary_matches ++ d.secondary_matches,
      it.keyword = it2.keyword → it.location = it2.location) := by
  obtain ⟨t2, a2, am, ht2, ha2, ham, hd, hs⟩ := matchKeywords_eq cfg p s d h
  rw [ht] at ht2
  injection ht2 with het
  subst het
  rw [ha] at ha2
  injection ha2 with hea
  subst hea
  have hloc : ∀ it ∈ d.primary_matches ++ d.secondary_matches,
      (strContains (lowerStr t) (lowerStr it.keyword) = true ∧ it.location = "title") ∨
      (strContains (lowerStr t) (lowerStr it.keyword) = false ∧ it.location = "abstract") := by
    intro it hit
    rw [List.mem_append] at hit
    cases hit with
    | inl h1 =>
      obtain ⟨-, h2⟩ := mem_keywordHits _ _ _ _ _ _ (hd ▸ h1)
      cases h2 with
      | inl h3 => exact Or.inl ⟨h3.1, h3.2.1⟩
      | inr h3 => exact Or.inr ⟨h3.1, h3.2.2.1⟩
    | inr h1 =>
      obtain ⟨-, h2⟩ := mem_keywordHits _ _ _ _ _ _ (hd ▸ h1)
      cases h2 with
      | inl h3 => exact Or.inl ⟨h3.1, h3.2.1⟩
      | inr h3 => exact Or.inr ⟨h3.1, h3.2.2.1⟩
  refine ⟨?_, ?_, ?_, ?_⟩
  · rw [hs]
    subst hd
    simp only [List.isEmpty_iff]
  · intro it hit
    obtain ⟨-, h2⟩ := mem_keywordHits _ _ _ _ _ _ (hd ▸ hit)
    cases h2 with
    | inl h3 => exact Or.inl ⟨h3.2.1, h3.2.2, h3.1⟩
    | inr h3 => exact Or.inr ⟨h3.2.2.1, h3.2.2.2, h3.1, h3.2.1⟩
  · intro it hit
    obtain ⟨-, h2⟩ := mem_keywordHits _ _ _ _ _ _ (hd ▸ hit)
    cases h2 with
    | inl h3 => exact Or.inl ⟨h3.2.1, h3.2.2, h3.1⟩
    | inr h3 => exact Or.inr ⟨h3.2.2.1, h3.2.2.2, h3.1, h3.2.1⟩
  · intro it hit it2 hit2 hkk
    cases hloc it hit with
    | inl h1 =>
      cases hloc it2 hit2 with
      | inl h2 => rw [h1.2, h2.2]
      | inr h2 => rw [hkk] at h1; rw [h1.1] at h2; cases h2.1
    | inr h1 =>
      cases hloc it2 hit2 with
      | inl h2 => rw [hkk] at h1; rw [h1.1] at h2; cases h2.1
      | inr h2 => rw [h1.2, h2.2]

/-- C2 (witness): the theorem applied to candidate A of the worked
example, whose single hit is a primary title hit of weight 2.0. -/
theorem C2_keyword_scoring_witness :
    (2 : Rat) = (([⟨"diffusion model", "title", 2⟩] : List MatchItem).map MatchItem.weight).sum
      + (([] : List MatchItem).map MatchItem.weight).sum
      + (if ([] : List String) = [] then (0 : Rat) else 1)
      - (if ([] : List String) = [] then (0 : Rat) else 2) :=
  (C2_keyword_scoring cfgSample paperA 2 ⟨[⟨"diffusion model", "title", 2⟩], [], [], []⟩
    "A Diffusion Model for X" "stuff" rfl rfl eval_match_paperA).1

/-- Concrete evaluation of the keyword stage on the worked example:
candidate B scores 0.5 (below 1.5) and is dropped, candidate A scores
2.0 and is kept with its score and evidence written in. -/
theorem eval_filter_rank :
    filterPapersByKeywords cfgSample [paperB, paperA] = some [paperAScored] := by
  simp +decide [filterPapersByKeywords, keepScored, matchKeywords, keywordHits, authorHits,
    cfgSample, paperB, paperA, paperAScored, wfSample]
  norm_num

/-- Concrete evaluation of the threshold filter on the worked example. -/
theorem eval_kept :
    ([paperAScored] : List Paper) = [paperB, paperA].filterMap (fun p =>
      (matchKeywords cfgSample p).bind (fun sd =>
        if cfgSample.minimum_match_score ≤ sd.1 then
          some { p with match_score := some sd.1, match_details := some sd.2 }
        else none)) := by
  have c1 : strContains (lowerStr "Another Method") (lowerStr "diffusion model") = false := by decide
  have c2 : strContains (lowerStr "uses a transformer") (lowerStr "diffusion model") = false := by decide
  have c3 : strContains (lowerStr "Another Method") (lowerStr "transformer") = false := by decide
  have c4 : strContains (lowerStr "uses a transformer") (lowerStr "transformer") = true := by decide
  have c5 : strContains (lowerStr "A Diffusion Model for X") (lowerStr "diffusion model") = true := by decide
  have c6 : strContains (lowerStr "A Diffusion Model for X") (lowerStr "transformer") = false := by decide
  have c7 : strContains (lowerStr "stuff") (lowerStr "transformer") = false := by decide
  have c8 : strContains (lowerStr "stuff") (lowerStr "diffusion model") = false := by decide
  simp +decide [matchKeywords, keywordHits, authorHits, cfgSample, paperB, paperA, paperAScored,
    wfSample, c1, c2, c3, c4, c5, c6, c7, c8, List.filterMap_cons, List.filterMap_nil]
  norm_num

/-- C4: on success the keyword stage returns exactly the candidates whose
score reaches the threshold (inclusive), as a permutation of the
threshold filter of the input with scores written in, sorted by score
descending, and stably: two kept candidates with equal scores keep
their input order. -/
theorem C4_filter_and_rank (cfg : KeywordsConfig) (papers out kept : List Paper)
    (h : filterPapersByKeywords cfg papers = some out)
    (hkept : kept = papers.filterMap (fun p => (matchKeywords cfg p).bind (fun sd =>
      if cfg.minimum_match_score ≤ sd.1 then
        some { p with match_score := some sd.1, match_details := some sd.2 }
      else none))) :
    out.Perm kept ∧
    out.Pairwise (fun a b => scoreKey b ≤ scoreKey a) ∧
    (∀ a b : Paper, [a, b].Sublist kept → scoreKey a = scoreKey b →
      [a, b].Sublist out) := by
  obtain ⟨kept2, hk2, hms⟩ := filterPapersByKeywords_eq cfg papers out h
  have he : kept2 = kept := by
    rw [keepScored_eq_filterMap cfg papers kept2 hk2, hkept]
  subst he
  subst hms
  refine ⟨List.mergeSort_perm kept2 paperLe, filterPapersByKeywords_sorted cfg papers _ h, ?_⟩
  intro a b hab hscore
  apply List.pair_sublist_mergeSort paperLe_trans paperLe_total
  · show paperLe a b = true
    simp [paperLe, hscore]
  · exact hab

/-- C4 (witness): the theorem applied to the worked example. -/
theorem C4_filter_and_rank_witness :
    ([paperAScored] : List Paper).Perm [paperAScored] ∧
    ([paperAScored] : List Paper).Pairwise (fun a b => scoreKey b ≤ scoreKey a) ∧
    (∀ a b : Paper, [a, b].Sublist [paperAScored] → scoreKey a = scoreKey b →
      [a, b].Sublist [paperAScored]) :=
  C4_filter_and_rank cfgSample [paperB, paperA] [paperAScored] [paperAScored]
    eval_filter_rank eval_kept

/-- C1: the Selection Pipeline (date filter, category filter, keyword
scoring and ranking, deduplication keeping first occurrences,
truncation to maxPapers) returns at most maxPapers candidates, namely
the longest prefix of the deduplicated ranked list of length at most
maxPapers, in descending score order; and when at least maxPapers
candidates qualify it returns exactly maxPapers of them, each scoring
at least every qualifying candidate it leaves out. -/
theorem C1_selection_bounding (cfg : KeywordsConfig) (today : Date) (days : Nat)
    (cats : List String) (maxPapers : Nat) (papers ranked deduped out : List Paper)
    (hr : filterPapersByKeywords cfg
      (filterByCategory cats (filterByDate today days papers)) = some ranked)
    (hd : filterDuplicates ranked = some deduped)
    (h : selectPapers cfg today days cats maxPapers papers = some out) :
    out.length ≤ maxPapers ∧
    out = deduped.take maxPapers ∧
    out.Pairwise (fun a b => scoreKey b ≤ scoreKey a) ∧
    (maxPapers ≤ deduped.length →
      out.length = maxPapers ∧
      ∀ x ∈ out, ∀ y ∈ deduped.drop maxPapers, scoreKey y ≤ scoreKey x) := by
  rw [selectPapers] at h
  rw [hr] at h
  simp only [Option.bind_eq_bind, Option.some_bind] at h
  rw [hd] at h
  simp only [Option.some_bind, Option.pure_def, Option.some.injEq] at h
  have hout : out = deduped.take maxPapers := by rw [← h]; rfl
  have hsorted_r := filterPapersByKeywords_sorted cfg _ ranked hr
  have hsub : deduped.Sublist ranked := filterDuplicatesAux_sublist ranked [] deduped hd
  have hsorted_d : deduped.Pairwise (fun a b => scoreKey b ≤ scoreKey a) :=
    List.Pairwise.sublist hsub hsorted_r
  refine ⟨?_, hout, ?_, ?_⟩
  · rw [hout, List.length_take]
    exact Nat.min_le_left _ _
  · rw [hout]
    exact List.Pairwise.sublist (List.take_sublist _ _) hsorted_d
  · intro hge
    refine ⟨?_, ?_⟩
    · rw [hout, List.length_take]
      omega
    · intro x hx y hy
      rw [hout] at hx
      exact pairwise_take_drop hsorted_d maxPapers x hx y hy

/-- C1 (witness): the pipeline run on the worked example with
maxPapers = 1: the single qualifying candidate is returned. -/
theorem C1_selection_bounding_witness :
    ([paperAScored] : List Paper).length ≤ 1 ∧
    ([paperAScored] : List Paper) = ([paperAScored] : List Paper).take 1 ∧
    ([paperAScored] : List Paper).Pairwise (fun a b => scoreKey b ≤ scoreKey a) ∧
    (1 ≤ ([paperAScored] : List Paper).length →
      ([paperAScored] : List Paper).length = 1 ∧
      ∀ x ∈ ([paperAScored] : List Paper),
        ∀ y ∈ ([paperAScored] : List Paper).drop 1, scoreKey y ≤ scoreKey x) := by
  have h1 : filterByDate sampleToday 2 [paperB, paperA] = [paperB, paperA] := by decide
  have h2 : filterByCategory ["cs.RO"] [paperB, paperA] = [paperB, paperA] := by decide
  have hr : filterPapersByKeywords cfgSample
      (filterByCategory ["cs.RO"] (filterByDate sampleToday 2 [paperB, paperA]))
      = some [paperAScored] := by
    rw [h1, h2]
    exact eval_filter_rank
  have hd : filterDuplicates [paperAScored] = some [paperAScored] := by
    simp [filterDuplicates, filterDuplicatesAux, paperAScored, paperA]
  have hsel : selectPapers cfgSample sampleToday 2 ["cs.RO"] 1 [paperB, paperA]
      = some [paperAScored] := by
    rw [selectPapers, hr]
    simp only [Option.bind_eq_bind, Option.some_bind]
    rw [hd]
    simp only [Option.some_bind, Option.pure_def]
    rfl
  exact C1_selection_bounding cfgSample sampleToday 2 ["cs.RO"] 1 [paperB, paperA]
    [paperAScored] [paperAScored] [paperAScored] hr hd hsel

/-- C9: rank_papers_by_impact gives every candidate with a citation
count and a parseable published date velocity = count / max(1, days
since publication) and impact = 0.7 × count + 0.3 × velocity × 10,
gives the remaining candidates velocity 0 and the correspondingly
derived impact instead of excluding them (the output is a permutation
of the enriched input), and returns the records sorted by impact
score, descending. -/
theorem C9_rank_by_impact (today : Date) (papers : List Paper) :
    (rankPapersByImpact today papers).Perm (papers.map (fun p =>
      let v : Rat :=
        match p.citation_count, p.published_date with
        | some c, some s =>
          match parseDate s with
          | some dt =>
            (c : Rat) / ((max 1 ((dayNumber today : Int) - (dayNumber dt : Int)) : Int) : Rat)
          | none => 0
        | _, _ => 0
      { p with citation_velocity := some v,
               impact_score := some ((7 / 10 : Rat) * ((p.citation_count.getD 0 : Int) : Rat)
                 + (3 / 10 : Rat) * v * 10) })) ∧
    (rankPapersByImpact today papers).Pairwise (fun a b => impactKey b ≤ impactKey a) := by
  have hmap : (calculateCitationVelocity today papers).map setImpactScore
      = papers.map (fun p =>
        let v : Rat :=
          match p.citation_count, p.published_date with
          | some c, some s =>
            match parseDate s with
            | some dt =>
              (c : Rat) / ((max 1 ((dayNumber today : Int) - (dayNumber dt : Int)) : Int) : Rat)
            | none => 0
          | _, _ => 0
        { p with citation_velocity := some v,
                 impact_score := some ((7 / 10 : Rat) * ((p.citation_count.getD 0 : Int) : Rat)
                   + (3 / 10 : Rat) * v * 10) }) := by
    rw [calculateCitationVelocity, List.map_map]
    apply List.map_congr_left
    intro p hp
    simp only [Function.comp]
    cases hc : p.citation_count with
    | none => rfl
    | some c =>
      cases hs : p.published_date with
      | none => rfl
      | some s =>
        cases hd : parseDate s with
        | none => simp [setImpactScore, hd]
        | some dt => simp [setImpactScore, hd]
  constructor
  · rw [rankPapersByImpact, hmap]
    exact List.mergeSort_perm _ _
  · rw [rankPapersByImpact]
    have hs := List.sorted_mergeSort impactLe_trans impactLe_total
      ((calculateCitationVelocity today papers).map setImpactScore)
    exact hs.imp (by intro a b hab; simpa [impactLe] using hab)

/-- Summing the recorded hit weights keyword by keyword: each keyword
contributes its title weight, else its abstract weight, else nothing. -/
theorem keywordHits_weight_sum (wf : WeightFactors) (tierW : Rat) (T A : String)
    (ks : List String) :
    ((keywordHits wf tierW T A ks).map MatchItem.weight).sum
      = (ks.map (fun k => if strContains T (lowerStr k) then wf.title_match * tierW
          else if strContains A (lowerStr k) then wf.abstract_match * tierW else 0)).sum := by
  induction ks with
  | nil => rfl
  | cons k ks2 ih =>
    simp only [keywordHits, List.filterMap_cons] at ih ⊢
    by_cases h1 : strContains T (lowerStr k) = true
    · simp [h1, ih]
    · by_cases h2 : strContains A (lowerStr k) = true
      · simp [h1, h2, ih]
      · simp [h1, h2, ih]

/-- C8 (counterexample): with all-ones weights, primary keyword "robot"
and exclude keyword "survey", retitling the candidate from
"nothing here" to "robot survey" makes one additional primary keyword
a title substring (all other fields equal) yet strictly lowers the
score from 0 to −1, because the new title also matches the exclude
keyword. -/
theorem C8_counterexample :
    plainPaperRetitled = { plainPaper with title := some "robot survey" } ∧
    "robot" ∈ cfgRobot.primary_keywords ∧
    strContains (lowerStr "nothing here") (lowerStr "robot") = false ∧
    strContains (lowerStr "robot survey") (lowerStr "robot") = true ∧
    (matchKeywords cfgRobot plainPaper).map Prod.fst = some 0 ∧
    (matchKeywords cfgRobot plainPaperRetitled).map Prod.fst = some (-1) ∧
    ((-1 : Rat) < 0) := by
  refine ⟨rfl, by decide, by decide, by decide, ?_, ?_, by norm_num⟩
  · simp +decide [matchKeywords, keywordHits, authorHits, cfgRobot, plainPaper, wfOnes]
  · simp +decide [matchKeywords, keywordHits, authorHits, cfgRobot, plainPaperRetitled,
      plainPaper, wfOnes]
    norm_num

/-- C8 (amended): when the primary and title multipliers are
nonnegative, the abstract multiplier is at most the title multiplier,
and the title modification makes one additional primary keyword a
title substring while leaving every other primary or secondary
keyword's hit status and every exclude keyword's matched status
unchanged (all other fields equal), the score never strictly
decreases. -/
theorem C8_title_hit_monotonic (cfg : KeywordsConfig) (p : Paper)
    (t t2 a : String) (k : String) (s s2 : Rat) (d d2 : MatchDetails)
    (ht : p.title = some t) (ha : p.abstract = some a)
    (hk : k ∈ cfg.primary_keywords)
    (hOld : strContains (lowerStr t) (lowerStr k) = false)
    (hNew : strContains (lowerStr t2) (lowerStr k) = true)
    (hPrim : ∀ k2 ∈ cfg.primary_keywords, k2 ≠ k →
      strContains (lowerStr t2) (lowerStr k2) = strContains (lowerStr t) (lowerStr k2))
    (hSec : ∀ k2 ∈ cfg.secondary_keywords,
      strContains (lowerStr t2) (lowerStr k2) = strContains (lowerStr t) (lowerStr k2))
    (hExc : ∀ k2 ∈ cfg.exclude_keywords,
      (strContains (lowerStr t2) (lowerStr k2) || strContains (lowerStr a) (lowerStr k2))
        = (strContains (lowerStr t) (lowerStr k2) || strContains (lowerStr a) (lowerStr k2)))
    (hw1 : 0 ≤ cfg.weight_factors.primary_keyword_match)
    (hw2 : 0 ≤ cfg.weight_factors.title_match)
    (hw3 : cfg.weight_factors.abstract_match ≤ cfg.weight_factors.title_match)
    (h1 : matchKeywords cfg p = some (s, d))
    (h2 : matchKeywords cfg { p with title := some t2 } = some (s2, d2)) :
    s ≤ s2 := by
  obtain ⟨tx, ax, am, htx, hax, ham, hd1, hs1⟩ := matchKeywords_eq cfg p s d h1
  rw [ht] at htx
  injection htx with he1
  subst he1
  rw [ha] at hax
  injection hax with he2
  subst he2
  obtain ⟨ty, ay, am2, hty, hay, ham2, hd2, hs2⟩ :=
    matchKeywords_eq cfg { p with title := some t2 } s2 d2 h2
  have hpt : ({ p with title := some t2 } : Paper).title = some t2 := rfl
  rw [hpt] at hty
  injection hty with he3
  subst he3
  have hpa : ({ p with title := some t2 } : Paper).abstract = p.abstract := rfl
  rw [hpa, ha] at hay
  injection hay with he4
  subst he4
  have hpam : authorHits cfg.author_preferences { p with title := some t2 }
      = authorHits cfg.author_preferences p := rfl
  rw [hpam, ham] at ham2
  injection ham2 with he5
  subst he5
  have hsec : keywordHits cfg.weight_factors cfg.weight_factors.secondary_keyword_match
      (lowerStr t2) (lowerStr a) cfg.secondary_keywords
      = keywordHits cfg.weight_factors cfg.weight_factors.secondary_keyword_match
      (lowerStr t) (lowerStr a) cfg.secondary_keywords := by
    rw [keywordHits, keywordHits]
    apply List.filterMap_congr
    intro k2 hk2
    rw [hSec k2 hk2]
  have hexc : cfg.exclude_keywords.filter (fun k2 =>
      strContains (lowerStr t2) (lowerStr k2) || strContains (lowerStr a) (lowerStr k2))
      = cfg.exclude_keywords.filter (fun k2 =>
      strContains (lowerStr t) (lowerStr k2) || strContains (lowerStr a) (lowerStr k2)) := by
    apply List.filter_congr
    intro k2 hk2
    exact hExc k2 hk2
  have hprim : ((keywordHits cfg.weight_factors cfg.weight_factors.primary_keyword_match
      (lowerStr t) (lowerStr a) cfg.primary_keywords).map MatchItem.weight).sum
      ≤ ((keywordHits cfg.weight_factors cfg.weight_factors.primary_keyword_match
      (lowerStr t2) (lowerStr a) cfg.primary_keywords).map MatchItem.weight).sum := by
    rw [keywordHits_weight_sum, keywordHits_weight_sum]
    apply List.sum_le_sum
    intro k2 hk2
    by_cases hkk : k2 = k
    · subst hkk
      rw [hOld, hNew]
      simp only [Bool.false_eq_true, if_false, if_true]
      by_cases hA : strContains (lowerStr a) (lowerStr k2) = true
      · rw [if_pos hA]
        exact mul_le_mul_of_nonneg_right hw3 hw1
      · rw [if_neg hA]
        exact mul_nonneg hw2 hw1
    · rw [hPrim k2 hk2 hkk]
  subst hd1
  subst hd2
  rw [hs1, hs2]
  simp only [hsec, hexc]
  have hfinal := hprim
  gcongr

/-- C8 (witness): the amended theorem applied to the "robot" taxonomy
without an exclude-keyword change: retitling "nothing here" to
"a robot" raises the score from 0 to 1. -/
theorem C8_title_hit_monotonic_witness : (0 : Rat) ≤ 1 := by
  have h1 : matchKeywords cfgRobot plainPaper = some (0, ⟨[], [], [], []⟩) := by
    simp +decide [matchKeywords, keywordHits, authorHits, cfgRobot, plainPaper, wfOnes]
  have h2 : matchKeywords cfgRobot { plainPaper with title := some "a robot" }
      = some (1, ⟨[⟨"robot", "title", 1⟩], [], [], []⟩) := by
    simp +decide [matchKeywords, keywordHits, authorHits, cfgRobot, plainPaper, wfOnes]
  exact C8_title_hit_monotonic cfgRobot plainPaper "nothing here" "a robot" "nothing"
    "robot" 0 1 ⟨[], [], [], []⟩ ⟨[⟨"robot", "title", 1⟩], [], [], []⟩
    rfl rfl (by decide) (by decide) (by decide)
    (by decide) (by decide) (by decide)
    (by norm_num [cfgRobot, wfOnes]) (by norm_num [cfgRobot, wfOnes])
    (by norm_num [cfgRobot, wfOnes]) h1 h2

end ArxivPipeline
